import Mathlib

/-!
Verification of the bytecode back end of a small interpreted language
(instruction encoding in `code/code.go`, tree-to-bytecode compiler stub).

Bytes are modelled as `Nat` values kept below 256 by the operations
themselves (`% 256` where the Go code truncates).  Fallible Go code —
slice indexing that can panic — is modelled with `Option`, `none`
standing for a runtime panic.  Go functions returning `(T, error)` are
modelled with `Except String T`.
-/

namespace Monkey

/-- Struct `Definition` from code.go: name of the opcode (for debugging) and the
byte-width of each operand, in order. -/
structure Definition where
  name : String
  operandWidths : List Nat
deriving DecidableEq, Repr

/-- The `OpConstant` opcode byte (`iota` = 0). -/
def OpConstant : Nat := 0

/-- The `OpAdd` opcode byte (`iota` = 1). -/
def OpAdd : Nat := 1

/-- The `Definitions` map from code.go: `OpConstant ↦ {"OpConstant", [2]}`,
`OpAdd ↦ {"OpAdd", []}`.  A two-entry Go map is embedded as a lookup
function. -/
def Definitions (op : Nat) : Option Definition :=
  if op = OpConstant then some ⟨"OpConstant", [2]⟩
  else if op = OpAdd then some ⟨"OpAdd", []⟩
  else none

/-- Function `Lookup` from code.go: find the Definition of an opcode byte, or the
error `fmt.Errorf("opcode %d undefined", op)`. -/
def Lookup (op : Nat) : Except String Definition :=
  match Definitions op with
  | some d => .ok d
  | none => .error ("opcode " ++ toString op ++ " undefined")

/-- Go's `binary.BigEndian.PutUint16` on the slice starting at `off`:
`buf[off] = byte(v >> 8)`, `buf[off+1] = byte(v)` where `v = uint16(o)`. -/
def putUint16At (buf : List Nat) (off : Nat) (o : Nat) : List Nat :=
  (buf.set off (o % 65536 / 256)).set (off + 1) (o % 256)

/-- The operand-writing loop of `Make`: `for i, o := range operands`,
reading `def.OperandWidths[i]` (a panic — `none` — when the index is out
of range), writing 2-byte operands big-endian and silently skipping any
other width, then advancing `offset` by the width. -/
def makeLoop (widths : List Nat) (buf : List Nat) (off : Nat) (i : Nat) :
    List Nat → Option (List Nat)
  | [] => some buf
  | o :: rest =>
    match widths.get? i with
    | none => none
    | some w =>
      let buf' := if w = 2 then putUint16At buf off o else buf
      makeLoop widths buf' (off + w) (i + 1) rest

/-- Function `Make` from code.go: look up the Definition (returning `[]byte{}` when
the opcode is unknown), allocate `1 + sum(widths)` zero bytes, write the
opcode byte at position 0, then run the operand-writing loop. -/
def Make (op : Nat) (operands : List Nat) : Option (List Nat) :=
  match Definitions op with
  | none => some []
  | some d =>
    let instructionLen := 1 + d.operandWidths.sum
    let instruction := (List.replicate instructionLen 0).set 0 (op % 256)
    makeLoop d.operandWidths instruction 1 0 operands

/-- Function `ReadUint16` from code.go: `binary.BigEndian.Uint16(ins)`, which reads
`ins[0]<<8 | ins[1]` and panics when fewer than two bytes remain. -/
def ReadUint16 (ins : List Nat) : Option Nat :=
  match ins with
  | b0 :: b1 :: _ => some (b0 * 256 + b1)
  | _ => none

/-- The width loop of `ReadOperands`: one decoded value per declared
width (2-byte widths read big-endian, any other width leaves the
preallocated 0), the offset advancing by each width; the final offset is
the bytes-consumed count. -/
def readLoop (ins : List Nat) (off : Nat) :
    List Nat → Option (List Nat × Nat)
  | [] => some ([], off)
  | w :: ws =>
    let v? := if w = 2 then ReadUint16 (ins.drop off) else some 0
    match v? with
    | none => none
    | some v =>
      match readLoop ins (off + w) ws with
      | none => none
      | some (vs, fin) => some (v :: vs, fin)

/-- Function `ReadOperands` from code.go: decode one operand per declared width
starting at offset 0 of `ins`, returning the values and the total bytes
consumed (the opcode byte excluded). -/
def ReadOperands (d : Definition) (ins : List Nat) : Option (List Nat × Nat) :=
  readLoop ins 0 d.operandWidths

/-- Go's `fmt.Sprintf("%04d", n)`: decimal digits of `n` left-padded with
zeros to at least four characters. -/
def pad4 (n : Nat) : String :=
  String.mk (List.replicate (4 - (toString n).length) '0') ++ toString n

/-- Method `Instructions.fmtInstruction` from code.go: render one decoded
instruction, with error text on an operand-count mismatch or an
operand count other than 0 or 1. -/
def fmtInstruction (d : Definition) (operands : List Nat) : String :=
  let operandCount := d.operandWidths.length
  if operands.length ≠ operandCount then
    "ERROR: operand len " ++ toString operands.length ++
      " does not match defined " ++ toString operandCount ++ "\n"
  else
    match operandCount with
    | 0 => d.name
    | 1 => d.name ++ " " ++ toString (operands.headD 0)
    | _ => "ERROR: unhandled operandCount for " ++ d.name ++ "\n"

/-- The scan loop of `Instructions.String` from code.go, fuel-indexed.
State is the byte offset `i`; one fuel unit is one loop iteration.  At
each offset below the length: a failed `Lookup` prints an error line and
`continue`s **without advancing `i`**; a successful one decodes the
operands from `ins[i+1:]`, prints `"%04d %s\n"`, and advances by
`1 + read`.  The result is the list of printed lines, `none` when the
fuel runs out before the loop exits (or a decode panics). -/
def stringLoop (ins : List Nat) : Nat → Nat → Option (List String)
  | 0, i => if ins.length ≤ i then some [] else none
  | fuel + 1, i =>
    if ins.length ≤ i then some []
    else
      match Lookup (ins.getD i 0) with
      | .error e =>
        match stringLoop ins fuel i with
        | none => none
        | some rest => some (("ERROR: " ++ e ++ "\n") :: rest)
      | .ok d =>
        match ReadOperands d (ins.drop (i + 1)) with
        | none => none
        | some (operands, read) =>
          match stringLoop ins fuel (i + 1 + read) with
          | none => none
          | some rest =>
            some ((pad4 i ++ " " ++ fmtInstruction d operands ++ "\n") :: rest)

/-- Method `Instructions.String` from code.go: the scan loop started at offset
0, the lines joined into one string.  `none` means the Go loop has not
exited within `fuel` iterations. -/
def InstructionsString (ins : List Nat) (fuel : Nat) : Option String :=
  (stringLoop ins fuel 0).map String.join

/-!  The compiler package (monkey AST, compiler stub, Bytecode). -/

/-- Syntax-tree nodes handed to the compiler: a program of statements,
expression statements, integer literals and binary infix expressions —
the shapes the test suite's input `1 + 2` parses into.  The stub
compiler inspects none of them. -/
inductive AstNode where
  | program (stmts : List AstNode)
  | exprStmt (e : AstNode)
  | intLit (v : Int)
  | binExpr (op : String) (l r : AstNode)
deriving Repr

/-- Runtime objects in the constant pool (integers only). -/
inductive Obj where
  | intObj (v : Int)
deriving DecidableEq, Repr

/-- The `Compiler` struct: the instruction stream compiled so far and
the constant pool. -/
structure Compiler where
  instructions : List Nat
  constants : List Obj
deriving DecidableEq, Repr

/-- Function `New` from the compiler package: both buffers start empty. -/
def CompilerNew : Compiler :=
  { instructions := [], constants := [] }

/-- Method `Compiler.Compile` from the compiler package: the current stub does
no work and returns `nil`; state-passing style makes the (absent) buffer
mutation explicit. -/
def Compile (c : Compiler) (_node : AstNode) : Except String Compiler :=
  .ok c

/-- Struct `Bytecode`: the pair handed to the virtual machine. -/
structure Bytecode where
  instructions : List Nat
  constants : List Obj
deriving DecidableEq, Repr

/-- Method `Compiler.Bytecode` from the compiler package. -/
def CompilerBytecode (c : Compiler) : Bytecode :=
  { instructions := c.instructions, constants := c.constants }

/-- Compiling a list of nodes in order, stopping at the first error —
how a caller issues a sequence of `Compile` calls. -/
def compileSeq (c : Compiler) : List AstNode → Except String Compiler
  | [] => .ok c
  | n :: ns =>
    match Compile c n with
    | .error e => .error e
    | .ok c' => compileSeq c' ns

/-- The AST of the test input `1 + 2`: a program with one expression
statement whose expression is `1 + 2`. -/
def astOnePlusTwo : AstNode :=
  .program [.exprStmt (.binExpr "+" (.intLit 1) (.intLit 2))]

/-- The instruction stream `TestIngegerArithmetic` expects for `1 + 2`:
push-constant 0, push-constant 1, add, concatenated. -/
def expectedStreamOnePlusTwo : List Nat :=
  ((Make OpConstant [0]).getD []) ++ ((Make OpConstant [1]).getD []) ++
    ((Make OpAdd []).getD [])

/-- The constant pool `TestIngegerArithmetic` expects for `1 + 2`. -/
def expectedConstantsOnePlusTwo : List Obj :=
  [.intObj 1, .intObj 2]

/-- Modelled from the spec's words, for comparison with `Make` (claim C2):
the `w` big-endian bytes of `v`, most significant byte first. -/
def bigEndianBytes (w : Nat) (v : Nat) : List Nat :=
  (List.range w).map (fun j => v / 256 ^ (w - 1 - j) % 256)

/-- Modelled from the spec's words, for comparison with `Make` (claim C2):
operands packed in the order defined, each big-endian in its declared
width. -/
def packOperands : List Nat → List Nat → List Nat
  | o :: os, w :: ws => bigEndianBytes w o ++ packOperands os ws
  | _, _ => []

/-- An (opcode byte, operand values) pair the encoder accepts: the opcode
is in the `Definitions` table and the operands match the declared widths
one for one, each within its width's unsigned range. -/
def ValidInstr (p : Nat × List Nat) : Prop :=
  ∃ d, Definitions p.1 = some d ∧
    List.Forall₂ (fun o w => o < 2 ^ (8 * w)) p.2 d.operandWidths

/-- The concatenation of the encoder's output over a list of
(opcode, operands) pairs — an instruction stream built purely from calls
to `Make` (`none` when some call panics). -/
def encodeAll : List (Nat × List Nat) → Option (List Nat)
  | [] => some []
  | p :: ps =>
    match Make p.1 p.2, encodeAll ps with
    | some b, some rest => some (b ++ rest)
    | _, _ => none

/-- The disassembly lines claim C6 predicts: one line per encoded
instruction, in stream order, the offset label being the total byte
length of all preceding instructions (each instruction's byte length
taken from `Make`'s actual output). -/
def expectedLines : List (Nat × List Nat) → Nat → List String
  | [], _ => []
  | p :: ps, off =>
    (match Definitions p.1 with
     | some d => pad4 off ++ " " ++ fmtInstruction d p.2 ++ "\n"
     | none => "") ::
      expectedLines ps (off + ((Make p.1 p.2).getD []).length)

/-!  Helper lemmas. -/

/-- Inversion for the two-entry `Definitions` table. -/
lemma definitions_inv {op : Nat} {d : Definition} (h : Definitions op = some d) :
    (op = OpConstant ∧ d = ⟨"OpConstant", [2]⟩) ∨
      (op = OpAdd ∧ d = ⟨"OpAdd", []⟩) := by
  unfold Definitions at h
  split at h
  · rename_i hop
    exact Or.inl ⟨hop, (Option.some.inj h).symm⟩
  · split at h
    · rename_i hop
      exact Or.inr ⟨hop, (Option.some.inj h).symm⟩
    · exact absurd h (by simp)

/-- Evaluating `Make` on `OpConstant` with one in-range operand. -/
lemma make_opconstant {n : Nat} (h : n < 65536) :
    Make OpConstant [n] = some [OpConstant, n / 256, n % 256] := by
  simp [Make, Definitions, makeLoop, putUint16At, OpConstant,
    Nat.mod_eq_of_lt h, List.set]

/-- Evaluating `Make` on `OpAdd` with no operands. -/
lemma make_opadd : Make OpAdd [] = some [OpAdd] := rfl

/-- Function `ReadOperands` for the `OpConstant` definition reads two big-endian
bytes and consumes two bytes, whatever follows them. -/
lemma read_opconstant (hi lo : Nat) (rest : List Nat) :
    ReadOperands ⟨"OpConstant", [2]⟩ (hi :: lo :: rest) =
      some ([hi * 256 + lo], 2) := by
  simp [ReadOperands, readLoop, ReadUint16]

/-- Function `ReadOperands` for the `OpAdd` definition consumes nothing. -/
lemma read_opadd (ins : List Nat) : ReadOperands ⟨"OpAdd", []⟩ ins = some ([], 0) :=
  rfl

/-- List access `getD` is the head of the dropped suffix. -/
lemma getD_eq_headD_drop (l : List Nat) (i : Nat) :
    l.getD i 0 = (l.drop i).headD 0 := by
  induction i generalizing l with
  | zero => cases l <;> rfl
  | succ j ih => cases l with
    | nil => rfl
    | cons a t => exact ih t

/-!  Claim theorems. -/

/-- Claim C5: for every byte with an entry in the `Definitions` table,
`Lookup` returns that entry's Definition without error; for every other
byte, `Lookup` fails with the `"opcode %d undefined"` error rather than
returning a Definition. -/
theorem c5_lookup_spec (b : Nat) (_hb : b < 256) :
    (∀ d, Definitions b = some d → Lookup b = Except.ok d) ∧
      (Definitions b = none →
        Lookup b = Except.error ("opcode " ++ toString b ++ " undefined")) := by
  constructor
  · intro d hd
    simp [Lookup, hd]
  · intro hnone
    simp [Lookup, hnone]

/-- Witness for C5 at the bytes 0 (defined) and 77 (undefined). -/
theorem c5_lookup_spec_witness :
    Lookup 0 = Except.ok ⟨"OpConstant", [2]⟩ ∧
      Lookup 77 = Except.error ("opcode " ++ toString 77 ++ " undefined") :=
  ⟨(c5_lookup_spec 0 (by decide)).1 ⟨"OpConstant", [2]⟩ rfl,
   (c5_lookup_spec 77 (by decide)).2 rfl⟩

/-- Claim C9: for every opcode byte absent from the `Definitions` table,
`Make` returns the empty byte sequence whatever the operands are, and it
returns normally (`some`, i.e. no panic) — its Go signature has no error
channel at all, so no error is signalled. -/
theorem c9_make_unknown_opcode (op : Nat) (_hop : op < 256)
    (hnone : Definitions op = none) (operands : List Nat) :
    Make op operands = some [] := by
  simp [Make, hnone]

/-- Witness for C9 at the unknown opcode byte 200 with operands supplied. -/
theorem c9_make_unknown_opcode_witness : Make 200 [1, 2, 3] = some [] :=
  c9_make_unknown_opcode 200 (by decide) rfl [1, 2, 3]

/-- Claim C10: the method `Compile` returns success unchanged on every node, so any
sequence of `Compile` calls on a fresh compiler leaves `Bytecode()` with
an empty instruction stream and an empty constant pool. -/
theorem c10_compile_is_noop :
    (∀ (c : Compiler) (node : AstNode), Compile c node = Except.ok c) ∧
      (∀ nodes : List AstNode, compileSeq CompilerNew nodes = Except.ok CompilerNew) ∧
      (CompilerBytecode CompilerNew).instructions = [] ∧
      (CompilerBytecode CompilerNew).constants = [] := by
  refine ⟨fun c node => rfl, ?_, rfl, rfl⟩
  intro nodes
  induction nodes with
  | nil => rfl
  | cons n ns ih => exact ih

/-- Claim C7 (code bug): the stub `Compile` succeeds on every node — here
evaluated on an integer literal, a node kind with no registered rule — and
never returns a compile-time error. -/
theorem c7_compile_stub_never_errors :
    Compile CompilerNew (AstNode.intLit 1) = Except.ok CompilerNew ∧
      ∀ e, Compile CompilerNew (AstNode.intLit 1) ≠ Except.error e :=
  ⟨rfl, fun _ h => Except.noConfusion h⟩

/-- Claim C3 (code bug): compiling the `1 + 2` program with the stub
compiler succeeds without touching the buffers, so the resulting Bytecode
is empty — not the constant pool `[1, 2]` and three-instruction stream
that `TestIngegerArithmetic` demands. -/
theorem c3_compile_one_plus_two_empty :
    Compile CompilerNew astOnePlusTwo = Except.ok CompilerNew ∧
      CompilerBytecode CompilerNew = ⟨[], []⟩ ∧
      expectedStreamOnePlusTwo = [0, 0, 0, 0, 0, 1, 1] ∧
      (CompilerBytecode CompilerNew).instructions ≠ expectedStreamOnePlusTwo ∧
      (CompilerBytecode CompilerNew).constants ≠ expectedConstantsOnePlusTwo :=
  ⟨rfl, rfl, rfl, by decide, by decide⟩

/-- Claim C1: for every opcode in the `Definitions` table and every full
set of operand values within the declared widths' unsigned ranges,
`ReadOperands` on the operand bytes of the `Make`-encoded instruction
recovers exactly those values, and the bytes-consumed count is the sum of
the declared operand widths (the opcode byte excluded). -/
theorem c1_roundtrip (op : Nat) (d : Definition) (ops : List Nat)
    (hd : Definitions op = some d)
    (hops : List.Forall₂ (fun o w => o < 2 ^ (8 * w)) ops d.operandWidths) :
    ∃ bytes, Make op ops = some bytes ∧
      ReadOperands d (bytes.drop 1) = some (ops, d.operandWidths.sum) := by
  rcases definitions_inv hd with ⟨rfl, rfl⟩ | ⟨rfl, rfl⟩
  · rcases List.forall₂_cons_right_iff.mp hops with ⟨n, l', hn, hrest, rfl⟩
    have hl' : l' = [] := List.forall₂_nil_right_iff.mp hrest
    subst hl'
    have hn' : n < 65536 := by simpa using hn
    refine ⟨[OpConstant, n / 256, n % 256], make_opconstant hn', ?_⟩
    have hdrop : [OpConstant, n / 256, n % 256].drop 1 = n / 256 :: n % 256 :: [] := rfl
    rw [hdrop, read_opconstant]
    have hsplit : n / 256 * 256 + n % 256 = n := by omega
    simp [hsplit]
  · have hnil : ops = [] := List.forall₂_nil_right_iff.mp hops
    subst hnil
    exact ⟨[OpAdd], make_opadd, rfl⟩

/-- Witness for C1: `OpConstant` with operand 258, and the instruction
built from it. -/
theorem c1_roundtrip_witness :
    ∃ bytes, Make OpConstant [258] = some bytes ∧
      ReadOperands ⟨"OpConstant", [2]⟩ (bytes.drop 1) =
        some ([258], (Definition.mk "OpConstant" [2]).operandWidths.sum) :=
  c1_roundtrip OpConstant ⟨"OpConstant", [2]⟩ [258] rfl
    (List.Forall₂.cons (by decide) List.Forall₂.nil)

/-- Claim C2: for every opcode in the `Definitions` table and every full
set of in-range operand values, `Make` yields exactly `1 + sum(widths)`
bytes, the opcode byte first, the operands packed in order, each
big-endian in its declared width. -/
theorem c2_make_layout (op : Nat) (d : Definition) (ops : List Nat)
    (hd : Definitions op = some d)
    (hops : List.Forall₂ (fun o w => o < 2 ^ (8 * w)) ops d.operandWidths) :
    ∃ bytes, Make op ops = some bytes ∧
      bytes = op :: packOperands ops d.operandWidths ∧
      bytes.length = 1 + d.operandWidths.sum := by
  rcases definitions_inv hd with ⟨rfl, rfl⟩ | ⟨rfl, rfl⟩
  · rcases List.forall₂_cons_right_iff.mp hops with ⟨n, l', hn, hrest, rfl⟩
    have hl' : l' = [] := List.forall₂_nil_right_iff.mp hrest
    subst hl'
    have hn' : n < 65536 := by simpa using hn
    refine ⟨[OpConstant, n / 256, n % 256], make_opconstant hn', ?_, by simp⟩
    have hdiv : n / 256 < 256 := by omega
    have hpack : packOperands [n] [2] = [n / 256 % 256, n % 256] := by
      simp [packOperands, bigEndianBytes, List.range_succ]
    rw [hpack, Nat.mod_eq_of_lt hdiv]
  · have hnil : ops = [] := List.forall₂_nil_right_iff.mp hops
    subst hnil
    exact ⟨[OpAdd], make_opadd, rfl, rfl⟩

/-- Witness for C2: `OpConstant` with operand 258 encodes to
`[0, 1, 2]`. -/
theorem c2_make_layout_witness :
    ∃ bytes, Make OpConstant [258] = some bytes ∧
      bytes = OpConstant :: packOperands [258] (Definition.mk "OpConstant" [2]).operandWidths ∧
      bytes.length = 1 + (Definition.mk "OpConstant" [2]).operandWidths.sum :=
  c2_make_layout OpConstant ⟨"OpConstant", [2]⟩ [258] rfl
    (List.Forall₂.cons (by decide) List.Forall₂.nil)

/-- Counterexample to claim C8 as stated: `OpConstant` declares one
operand, yet `Make` called with zero operands does not fail at all — it
returns the normal, full-length, zero-filled instruction `[0, 0, 0]`. -/
theorem c8_make_arity_counterexample :
    Make OpConstant [] = some [0, 0, 0] ∧ Make OpConstant [] ≠ none :=
  ⟨rfl, by decide⟩

/-- Claim C8 as amended: `Make` performs no arity check.  With fewer
operands than declared it silently returns a full-length
(`1 + sum(widths)`) instruction headed by the opcode byte (missing
operand bytes left zero); with more operands than declared it panics
from indexing `OperandWidths` out of range instead of returning a
failure result. -/
theorem c8_make_arity_mismatch (op : Nat) (d : Definition) (ops : List Nat)
    (hd : Definitions op = some d) :
    (ops.length < d.operandWidths.length →
      ∃ bytes, Make op ops = some bytes ∧
        bytes.length = 1 + d.operandWidths.sum ∧ bytes.headD 0 = op) ∧
    (d.operandWidths.length < ops.length → Make op ops = none) := by
  rcases definitions_inv hd with ⟨rfl, rfl⟩ | ⟨rfl, rfl⟩
  · constructor
    · intro hlt
      cases ops with
      | nil => exact ⟨[0, 0, 0], rfl, rfl, rfl⟩
      | cons a t => simp only [List.length_cons, List.length] at hlt; omega
    · intro hgt
      cases ops with
      | nil => simp at hgt
      | cons a t =>
        cases t with
        | nil => simp at hgt
        | cons b t' => rfl
  · constructor
    · intro hlt
      exact absurd hlt (by simp)
    · intro hgt
      cases ops with
      | nil => simp at hgt
      | cons a t => rfl

/-- Witness for C8's amended claim: too few operands (zero for
`OpConstant`) give the full-length instruction; too many (two) panic. -/
theorem c8_make_arity_mismatch_witness :
    (∃ bytes, Make OpConstant [] = some bytes ∧
      bytes.length = 1 + (Definition.mk "OpConstant" [2]).operandWidths.sum ∧
      bytes.headD 0 = OpConstant) ∧
    Make OpConstant [7, 8] = none :=
  ⟨(c8_make_arity_mismatch OpConstant ⟨"OpConstant", [2]⟩ [] rfl).1 (by decide),
   (c8_make_arity_mismatch OpConstant ⟨"OpConstant", [2]⟩ [7, 8] rfl).2 (by decide)⟩

/-- One successful iteration of the scan loop: a known opcode emits its
line and advances the offset by `1 + read`. -/
lemma stringLoop_step (full : List Nat) (fuel i : Nat) (d : Definition)
    (ops : List Nat) (read : Nat) (hi : i < full.length)
    (hop : Lookup (full.getD i 0) = Except.ok d)
    (hread : ReadOperands d (full.drop (i + 1)) = some (ops, read)) :
    stringLoop full (fuel + 1) i =
      match stringLoop full fuel (i + 1 + read) with
      | none => none
      | some rest =>
        some ((pad4 i ++ " " ++ fmtInstruction d ops ++ "\n") :: rest) := by
  simp only [stringLoop]
  rw [if_neg (Nat.not_le.mpr hi)]
  simp only [hop, hread]

/-- One failing iteration of the scan loop: an unknown opcode emits its
error line and leaves the offset unchanged. -/
lemma stringLoop_step_err (full : List Nat) (fuel i : Nat) (e : String)
    (hi : i < full.length)
    (hop : Lookup (full.getD i 0) = Except.error e) :
    stringLoop full (fuel + 1) i =
      match stringLoop full fuel i with
      | none => none
      | some rest => some (("ERROR: " ++ e ++ "\n") :: rest) := by
  simp only [stringLoop]
  rw [if_neg (Nat.not_le.mpr hi)]
  simp only [hop]

/-- Once the scan loop of `Instructions.String` reaches the unknown
opcode byte 2 at offset 1 of `[OpAdd, 2]`, it never exits: the offset is
not advanced after the error line, so every fuel bound is exhausted. -/
lemma stringLoop_stuck (fuel : Nat) : stringLoop [OpAdd, 2] fuel 1 = none := by
  induction fuel with
  | zero => rfl
  | succ f ih =>
    have hi : 1 < ([OpAdd, 2] : List Nat).length := by decide
    have hop : Lookup (([OpAdd, 2] : List Nat).getD 1 0) =
        Except.error ("opcode " ++ toString 2 ++ " undefined") := rfl
    rw [stringLoop_step_err [OpAdd, 2] f 1 _ hi hop, ih]

/-- The whole scan of `[OpAdd, 2]` runs out of any fuel: the first
instruction is consumed, then the loop sticks at offset 1. -/
lemma stringLoop_unknown_none (fuel : Nat) : stringLoop [OpAdd, 2] fuel 0 = none := by
  cases fuel with
  | zero => rfl
  | succ f =>
    have hi : 0 < ([OpAdd, 2] : List Nat).length := by decide
    have hop : Lookup (([OpAdd, 2] : List Nat).getD 0 0) =
        Except.ok ⟨"OpAdd", []⟩ := rfl
    have hread : ReadOperands ⟨"OpAdd", []⟩ (([OpAdd, 2] : List Nat).drop 1) =
        some ([], 0) := rfl
    rw [stringLoop_step [OpAdd, 2] f 0 ⟨"OpAdd", []⟩ [] 0 hi hop hread,
      show (0 : Nat) + 1 + 0 = 1 from rfl, stringLoop_stuck f]

/-- Claim C4 (code bug): on the stream `[OpAdd, 2]` — a valid instruction
followed by the unknown opcode byte 2 — `Lookup` does report the
undefined-opcode error, but `Instructions.String` never terminates: its
scan loop does not advance the offset past the bad byte, so it completes
within no iteration bound at all. -/
theorem c4_disassembly_nonterminating :
    Lookup 2 = Except.error ("opcode " ++ toString 2 ++ " undefined") ∧
      ¬ ∃ fuel out, InstructionsString [OpAdd, 2] fuel = some out := by
  refine ⟨rfl, ?_⟩
  rintro ⟨fuel, out, h⟩
  rw [InstructionsString, stringLoop_unknown_none fuel] at h
  simp at h

/-- Lemma: `expectedLines` yields exactly one line per instruction. -/
lemma expectedLines_length (progs : List (Nat × List Nat)) :
    ∀ off, (expectedLines progs off).length = progs.length := by
  induction progs with
  | nil => intro off; rfl
  | cons p ps ih => intro off; simp [expectedLines, ih]

/-- The scan loop, run on any suffix of an encoder-built stream with one
fuel unit per remaining instruction, emits exactly the predicted lines. -/
lemma stringLoop_encoded (progs : List (Nat × List Nat)) :
    ∀ (s full : List Nat) (i : Nat),
      (∀ p ∈ progs, ValidInstr p) →
      encodeAll progs = some s →
      full.drop i = s →
      stringLoop full progs.length i = some (expectedLines progs i) := by
  induction progs with
  | nil =>
    intro s full i _ he hdrop
    have hs : s = [] := (Option.some.inj he).symm
    subst hs
    have hlen : full.length ≤ i := List.drop_eq_nil_iff.mp hdrop
    simp [stringLoop, expectedLines, hlen]
  | cons p ps ih =>
    obtain ⟨op, ops⟩ := p
    intro s full i hv he hdrop
    obtain ⟨d, hd, hf⟩ := hv _ (List.mem_cons_self _ _)
    have hv' : ∀ q ∈ ps, ValidInstr q := fun q hq => hv q (List.mem_cons_of_mem _ hq)
    cases hm : Make op ops with
    | none => cases he' : encodeAll ps <;> simp [encodeAll, hm, he'] at he
    | some b =>
      cases he' : encodeAll ps with
      | none => simp [encodeAll, hm, he'] at he
      | some s' =>
        have hs : s = b ++ s' := by
          simp only [encodeAll, hm, he'] at he
          exact (Option.some.inj he).symm
        subst hs
        rcases definitions_inv hd with ⟨rfl, rfl⟩ | ⟨rfl, rfl⟩
        · rcases List.forall₂_cons_right_iff.mp hf with ⟨n, l', hn, hrest, rfl⟩
          have hl' : l' = [] := List.forall₂_nil_right_iff.mp hrest
          subst hl'
          have hn' : n < 65536 := by simpa using hn
          have hb : b = [OpConstant, n / 256, n % 256] := by
            rw [make_opconstant hn'] at hm
            exact (Option.some.inj hm).symm
          subst hb
          have hi : i < full.length := by
            by_contra hcon
            push_neg at hcon
            rw [List.drop_eq_nil_iff.mpr hcon] at hdrop
            simp at hdrop
          have hbyte : full.getD i 0 = OpConstant := by
            rw [getD_eq_headD_drop, hdrop]; rfl
          have hop : Lookup (full.getD i 0) = Except.ok ⟨"OpConstant", [2]⟩ := by
            rw [hbyte]; rfl
          have hdrop1 : full.drop (i + 1) = n / 256 :: n % 256 :: s' := by
            have h1 : List.drop 1 (List.drop i full) = List.drop (i + 1) full :=
              List.drop_drop 1 i full
            rw [← h1, hdrop]
            rfl
          have hread : ReadOperands ⟨"OpConstant", [2]⟩ (full.drop (i + 1)) =
              some ([n], 2) := by
            rw [hdrop1, read_opconstant]
            have hsplit : n / 256 * 256 + n % 256 = n := by omega
            rw [hsplit]
          have hdrop3 : full.drop (i + 1 + 2) = s' := by
            have h3 : List.drop 3 (List.drop i full) = List.drop (i + 3) full :=
              List.drop_drop 3 i full
            have h13 : i + 1 + 2 = i + 3 := by omega
            rw [h13, ← h3, hdrop]
            rfl
          have hrec := ih s' full (i + 1 + 2) hv' he' hdrop3
          have hloop := stringLoop_step full ps.length i ⟨"OpConstant", [2]⟩ [n] 2
            hi hop hread
          rw [List.length_cons, hloop, hrec,
            show i + 1 + 2 = i + 3 from by omega]
          simp [expectedLines, make_opconstant hn', Definitions]
        · have hnil : ops = [] := List.forall₂_nil_right_iff.mp hf
          subst hnil
          have hb : b = [OpAdd] := by
            rw [make_opadd] at hm
            exact (Option.some.inj hm).symm
          subst hb
          have hi : i < full.length := by
            by_contra hcon
            push_neg at hcon
            rw [List.drop_eq_nil_iff.mpr hcon] at hdrop
            simp at hdrop
          have hbyte : full.getD i 0 = OpAdd := by
            rw [getD_eq_headD_drop, hdrop]; rfl
          have hop : Lookup (full.getD i 0) = Except.ok ⟨"OpAdd", []⟩ := by
            rw [hbyte]; rfl
          have hread : ReadOperands ⟨"OpAdd", []⟩ (full.drop (i + 1)) =
              some ([], 0) := read_opadd _
          have hdrop1 : full.drop (i + 1 + 0) = s' := by
            have h1 : List.drop 1 (List.drop i full) = List.drop (i + 1) full :=
              List.drop_drop 1 i full
            have h10 : i + 1 + 0 = i + 1 := by omega
            rw [h10, ← h1, hdrop]
            rfl
          have hrec := ih s' full (i + 1 + 0) hv' he' hdrop1
          have hloop := stringLoop_step full ps.length i ⟨"OpAdd", []⟩ [] 0
            hi hop hread
          rw [List.length_cons, hloop, hrec,
            show i + 1 + 0 = i + 1 from by omega]
          simp [expectedLines, make_opadd, Definitions,
            show OpAdd ≠ OpConstant from by decide]

/-- Claim C6: disassembling a stream built purely from `Make` over known
opcodes with in-range operands renders exactly one line per instruction,
in stream order, each line's offset label being the total byte length of
all preceding instructions. -/
theorem c6_disassemble_encoded (progs : List (Nat × List Nat)) (s : List Nat)
    (hv : ∀ p ∈ progs, ValidInstr p) (he : encodeAll progs = some s) :
    stringLoop s progs.length 0 = some (expectedLines progs 0) ∧
      InstructionsString s progs.length = some (String.join (expectedLines progs 0)) ∧
      (expectedLines progs 0).length = progs.length := by
  have h := stringLoop_encoded progs s s 0 hv he (by simp)
  refine ⟨h, ?_, expectedLines_length progs 0⟩
  rw [InstructionsString, h]
  rfl

/-- Witness for C6: the stream of `OpConstant 5` then `OpAdd` disassembles
to two lines at offsets 0 and 3. -/
theorem c6_disassemble_encoded_witness :
    stringLoop [0, 0, 5, 1] 2 0 = some ["0000 OpConstant 5\n", "0003 OpAdd\n"] := by
  have hv : ∀ p ∈ [((0 : Nat), [(5 : Nat)]), (1, [])], ValidInstr p := by
    intro p hp
    simp only [List.mem_cons, List.not_mem_nil, or_false] at hp
    rcases hp with rfl | rfl
    · exact ⟨⟨"OpConstant", [2]⟩, rfl, List.Forall₂.cons (by decide) List.Forall₂.nil⟩
    · exact ⟨⟨"OpAdd", []⟩, rfl, List.Forall₂.nil⟩
  have h := (c6_disassemble_encoded [((0 : Nat), [(5 : Nat)]), (1, [])]
    [0, 0, 5, 1] hv rfl).1
  exact h.trans (by decide)

end Monkey
